import Mathlib

/-!
# SmallRTS: relay, channel gating and state sync

A shallow embedding of `server.js` (the signaling relay) and of the
`PeerConnection`, `Unit` and `Game` classes of `src/game.js`, followed by
theorems about them.

JavaScript `Map` objects are association lists in insertion order, mutable
objects are values that are written back under their key, and the random
identifiers drawn with `Math.random()` are inputs of the event that draws them.
-/

namespace SmallRTS

/-! ## JavaScript `Map` -/

/-- A JavaScript `Map`: entries in insertion order. -/
abbrev JsMap (κ : Type) (ν : Type) := List (κ × ν)

namespace JsMap

variable {κ ν : Type} [DecidableEq κ]

/-- The call `m.get(k)`: the value stored under `k`, `none` for `undefined`. -/
def get : JsMap κ ν → κ → Option ν
  | [], _ => none
  | (k', v) :: rest, k => if k' = k then some v else get rest k

/-- The call `m.set(k, v)`: an existing key keeps its position, a new key goes last. -/
def set : JsMap κ ν → κ → ν → JsMap κ ν
  | [], k, v => [(k, v)]
  | (k', v') :: rest, k, v => if k' = k then (k, v) :: rest else (k', v') :: set rest k v

/-- The call `m.delete(k)`. -/
def delete (m : JsMap κ ν) (k : κ) : JsMap κ ν :=
  m.filter (fun e => decide (e.1 ≠ k))

/-- The keys `[...m.keys()]`. -/
def keys (m : JsMap κ ν) : List κ := m.map Prod.fst

/-- The values `[...m.values()]`. -/
def values (m : JsMap κ ν) : List ν := m.map Prod.snd

/-- The size `m.size`. -/
def size (m : JsMap κ ν) : Nat := m.length

end JsMap

/-! ## `PeerConnection`: channel registration and the `onopen` handler -/

/-- The part of a `PeerConnection` that `setupChannel` reads and writes.
`channels` holds the labels that have a channel object in `this.channels`,
`readyCalls` counts the invocations of `onChannelReady`, and `opened` records
which channels have reported open (the code keeps no such record; it is the
history against which readiness is judged). -/
structure PeerConnection where
  channels : List String
  opened : List String
  readyCalls : Nat
  deriving DecidableEq

namespace PeerConnection

/-- The state left by the constructor: `this.channels = {}`. -/
def new : PeerConnection := { channels := [], opened := [], readyCalls := 0 }

/-- The method `setupChannel(channel)`: `this.channels[channel.label] = channel` and the
installation of the `onopen` handler (which is `onopen` below). -/
def setupChannel (pc : PeerConnection) (label : String) : PeerConnection :=
  { pc with channels := if label ∈ pc.channels then pc.channels else pc.channels ++ [label] }

/-- The method `createChannels()`: the initiator registers both channels at once. -/
def createChannels (pc : PeerConnection) : PeerConnection :=
  (pc.setupChannel "reliable").setupChannel "fast"

/-- The `onopen` handler installed by `setupChannel` for the channel `label`:
`if (this.channels.reliable && this.channels.fast) this.onChannelReady(this)`.
Only a channel that went through `setupChannel` has the handler. -/
def onopen (pc : PeerConnection) (label : String) : PeerConnection :=
  if label ∈ pc.channels then
    { pc with
      opened := pc.opened ++ [label]
      readyCalls :=
        if "reliable" ∈ pc.channels ∧ "fast" ∈ pc.channels then pc.readyCalls + 1
        else pc.readyCalls }
  else pc

/-- The events of a connection: a channel is registered (`createDataChannel` on
the initiator, `ondatachannel` on the responder) or a channel reports open. -/
inductive Event where
  | setup (label : String)
  | opens (label : String)
  deriving DecidableEq

/-- One event. -/
def step (pc : PeerConnection) : Event → PeerConnection
  | .setup l => pc.setupChannel l
  | .opens l => pc.onopen l

/-- A sequence of events, oldest first. -/
def run (pc : PeerConnection) (evs : List Event) : PeerConnection :=
  evs.foldl step pc

end PeerConnection

/-! ## The signaling relay (`server.js`) -/

/-- A payload the relay forwards without looking inside. -/
abbrev Payload := String

/-- A message a client sends to the relay, by its `type` field; `dest` is the
field `to`. -/
inductive ClientMsg where
  | create
  | join (room : String)
  | signal (room : String) (dest : String) (payload : Payload)
  | other (type : String)
  deriving DecidableEq

/-- A message the relay sends to a client. -/
inductive ServerMsg where
  | created (room : String) (self : String)
  | joined (room : String) (self : String)
  | peers (room : String) (peers : List String)
  | signal (sender : String) (payload : Payload)
  | left (peer : String)
  | error (code : String)
  deriving DecidableEq

/-- A room: `Map(peerId -> ws)`, sockets named by a number. -/
abbrev Room := JsMap String Nat

/-- The table `rooms`: `Map(roomId -> Map(peerId -> ws))`. -/
abbrev Rooms := JsMap String Room

/-- The variables of one `connection` closure: the socket `ws`, `roomId`
(`none` for `null`) and `peerId`. -/
structure Conn where
  ws : Nat
  roomId : Option String
  peerId : String
  deriving DecidableEq

/-- A call of `send(ws, o)`: the socket and the message. -/
abbrev Sent := Nat × ServerMsg

/-- The function `broadcast(room, exceptId, o)`. -/
def broadcast (room : Room) (exceptId : String) (o : ServerMsg) : List Sent :=
  (room.filter (fun e => decide (e.1 ≠ exceptId))).map (fun e => (e.2, o))

/-- The `message` handler of a connection. `rnd` is the room id that
`Math.random().toString(36).slice(2,6)` yields when the message is `create`. -/
def onMessage (rooms : Rooms) (c : Conn) (msg : ClientMsg) (rnd : String) :
    Rooms × Conn × List Sent :=
  match msg with
  | .create =>
    (rooms.set rnd [(c.peerId, c.ws)], { c with roomId := some rnd },
      [(c.ws, .created rnd c.peerId)])
  | .join r =>
    match rooms.get r with
    | none => (rooms, c, [(c.ws, .error "not_found")])
    | some room =>
      let room' := room.set c.peerId c.ws
      (rooms.set r room', { c with roomId := some r },
        [(c.ws, .joined r c.peerId), (c.ws, .peers r room'.keys)]
          ++ broadcast room' c.peerId (.peers r room'.keys))
  | .signal r dest payload =>
    match rooms.get r with
    | none => (rooms, c, [])
    | some room =>
      if dest = "host" then
        match room.keys.head? with
        | none => (rooms, c, [])
        | some hostId =>
          match room.get hostId with
          | none => (rooms, c, [])
          | some host => (rooms, c, [(host, .signal c.peerId payload)])
      else
        match room.get dest with
        | none => (rooms, c, [])
        | some s => (rooms, c, [(s, .signal c.peerId payload)])
  | .other _ => (rooms, c, [])

/-- The `close` handler of a connection. -/
def onClose (rooms : Rooms) (c : Conn) : Rooms × List Sent :=
  match c.roomId with
  | none => (rooms, [])
  | some r =>
    match rooms.get r with
    | none => (rooms, [])
    | some room =>
      let room' := room.delete c.peerId
      let out := broadcast room' c.peerId (.left c.peerId)
      if room'.size = 0 then (rooms.delete r, out) else (rooms.set r room', out)

/-- The relay: the table of rooms and the closures of the open connections. -/
structure Relay where
  rooms : Rooms
  conns : JsMap Nat Conn
  deriving DecidableEq

/-- The relay at start-up. -/
def Relay.empty : Relay := { rooms := [], conns := [] }

/-- What happens at the relay. `connection` carries the peer id drawn for the
new socket, `message` the room id drawn in case the message is `create`. -/
inductive RelayEvent where
  | connection (ws : Nat) (peerId : String)
  | message (ws : Nat) (msg : ClientMsg) (rnd : String)
  | close (ws : Nat)
  deriving DecidableEq

/-- One event at the relay with the messages it sends. A socket that is not
open delivers no events. -/
def Relay.step (r : Relay) : RelayEvent → Relay × List Sent
  | .connection ws peerId =>
    ({ r with conns := r.conns.set ws { ws := ws, roomId := none, peerId := peerId } }, [])
  | .message ws msg rnd =>
    match r.conns.get ws with
    | none => (r, [])
    | some c =>
      let res := onMessage r.rooms c msg rnd
      ({ rooms := res.1, conns := r.conns.set ws res.2.1 }, res.2.2)
  | .close ws =>
    match r.conns.get ws with
    | none => (r, [])
    | some c =>
      let res := onClose r.rooms c
      ({ rooms := res.1, conns := r.conns.delete ws }, res.2)

/-- A sequence of events, oldest first, with everything sent. -/
def Relay.run (r : Relay) : List RelayEvent → Relay × List Sent
  | [] => (r, [])
  | e :: es =>
    let r1 := r.step e
    let r2 := Relay.run r1.1 es
    (r2.1, r1.2 ++ r2.2)

/-- The peer id at index 0 of a room's membership list, which the `signal`
branch computes as `[...room.keys()][0]`. -/
def hostId (rooms : Rooms) (r : String) : Option String :=
  (rooms.get r).bind (fun room => room.keys.head?)

/-! ## `Unit` and `Game` (`src/game.js`)

Numbers are the elements of a linearly ordered field `α`; `Math.sqrt` is an
argument of the functions that call it. -/

/-- A `Unit` object. -/
structure Unit (α : Type) where
  id : Nat
  x : α
  y : α
  owner : String
  targetX : α
  targetY : α
  hp : α
  maxHp : α
  speed : α
  selected : Bool

namespace Unit

variable {α : Type} [LinearOrderedField α]

/-- The constructor `new Unit(id, x, y, owner)`. -/
def new (id : Nat) (x y : α) (owner : String) : Unit α :=
  { id := id, x := x, y := y, owner := owner, targetX := x, targetY := y,
    hp := 100, maxHp := 100, speed := 2, selected := false }

/-- The method `update()`: one movement step towards the target. -/
def update (sqrt : α → α) (u : Unit α) : Unit α :=
  let dx := u.targetX - u.x
  let dy := u.targetY - u.y
  let dist := sqrt (dx * dx + dy * dy)
  if dist > u.speed then
    { u with x := u.x + (dx / dist) * u.speed, y := u.y + (dy / dist) * u.speed }
  else
    { u with x := u.targetX, y := u.targetY }

/-- The method `moveTo(x, y)`. -/
def moveTo (u : Unit α) (x y : α) : Unit α :=
  { u with targetX := x, targetY := y }

end Unit

/-- An entry of `snap.units`: `{id, x, y, tx, ty, hp, owner}`. -/
structure UnitData (α : Type) where
  id : Nat
  x : α
  y : α
  tx : α
  ty : α
  hp : α
  owner : String

/-- A snapshot message `{t: 'snap', tick, units}`. -/
structure Snapshot (α : Type) where
  tick : Nat
  units : List (UnitData α)

/-- The built-in `Math.round`: the nearest integer, a tie going up, which is
the floor of `x + 1/2`. -/
def mathRound {α : Type} [LinearOrderedField α] [FloorRing α] (x : α) : α :=
  ((⌊x + 1 / 2⌋ : ℤ) : α)

/-- The method `serialize()` of a unit. -/
def Unit.serialize {α : Type} [LinearOrderedField α] [FloorRing α] (u : Unit α) :
    UnitData α :=
  { id := u.id, x := mathRound u.x, y := mathRound u.y, tx := mathRound u.targetX,
    ty := mathRound u.targetY, hp := u.hp, owner := u.owner }

/-- A command `[action, ...args]`. -/
structure Command (α : Type) where
  action : String
  args : List α

/-- An entry of `players`: `{id, color}`. -/
structure Player where
  id : String
  color : String
  deriving DecidableEq

/-- The fields of a `Game` that the simulation reads and writes (`selection`
is a `Set` in insertion order, `myPlayerId` is `none` for `null`). -/
structure Game (α : Type) where
  isHost : Bool
  units : JsMap Nat (Unit α)
  players : JsMap String Player
  tick : Nat
  nextUnitId : Nat
  running : Bool
  myPlayerId : Option String
  selection : List Nat

namespace Game

variable {α : Type} [LinearOrderedField α]

/-- The constructor `new Game(isHost, network)`. -/
def new (isHost : Bool) : Game α :=
  { isHost := isHost, units := [], players := [], tick := 0, nextUnitId := 1,
    running := false, myPlayerId := none, selection := [] }

/-- The method `getPlayerColor(playerId)`: the sum of the character codes picks the
colour. -/
def getPlayerColor (playerId : String) : String :=
  let colors := ["#e74c3c", "#3498db", "#2ecc71", "#f39c12", "#9b59b6", "#1abc9c",
    "#e67e22", "#95a5a6"]
  let hash := playerId.toList.foldl (fun acc ch => acc + ch.toNat) 0
  colors.getD (hash % colors.length) ""

/-- The method `executeCommand(playerId, cmd)`: a `move` walks over `this.selection`. A
unit object is changed in place, which here is writing it back under its key.
The destructuring `const [x, y] = args` gives `undefined` for a coordinate the
command does not carry; `undefined` is that value among the values `α` that the
fields of a unit hold. -/
def executeCommand (g : Game α) (undefined : α) (playerId : String) (cmd : Command α) :
    Game α :=
  if cmd.action = "move" then
    let x := cmd.args.getD 0 undefined
    let y := cmd.args.getD 1 undefined
    { g with
      units := g.selection.foldl
        (fun units unitId =>
          match units.get unitId with
          | some unit =>
            if unit.owner = playerId then units.set unitId (unit.moveTo x y) else units
          | none => units)
        g.units }
  else g

/-- The method `handleInput(playerId, commands)`. -/
def handleInput (g : Game α) (undefined : α) (playerId : String)
    (commands : List (Command α)) : Game α :=
  commands.foldl (fun g cmd => g.executeCommand undefined playerId cmd) g

/-- The method `addPlayer(playerId)`: the player entry and, on the host, three units. -/
def addPlayer (g : Game α) (playerId : String) : Game α :=
  let players := g.players.set playerId { id := playerId, color := getPlayerColor playerId }
  if g.isHost then
    let startX : α := 100 + (players.size : α) * 100
    let startY : α := 100 + (players.size : α) * 80
    let res := (List.range 3).foldl
      (fun (st : JsMap Nat (Unit α) × Nat) (i : Nat) =>
        (st.1.set st.2 (Unit.new st.2 (startX + (i : α) * 30) startY playerId), st.2 + 1))
      (g.units, g.nextUnitId)
    { g with players := players, units := res.1, nextUnitId := res.2 }
  else
    { g with players := players }

/-- The unit that one pass of the loop of `handleSnapshot` stores for the entry
`data`: the unit the old collection has under `data.id`, or else a new one,
with `x`, `y`, `targetX`, `targetY` and `hp` overwritten. -/
def snapshotUnit (units : JsMap Nat (Unit α)) (data : UnitData α) : Unit α :=
  let unit :=
    match units.get data.id with
    | some u => u
    | none => Unit.new data.id data.x data.y data.owner
  { unit with x := data.x, y := data.y, targetX := data.tx, targetY := data.ty, hp := data.hp }

/-- The method `handleSnapshot(snap)`. The loop reads the old collection `this.units` and
fills `newUnits`. An old unit object that two entries name is fetched twice and
every field the first pass wrote is written again by the second, so the object
left under the key is the old unit with the last entry's fields. -/
def handleSnapshot (g : Game α) (snap : Snapshot α) : Game α :=
  { g with
    tick := snap.tick
    units := snap.units.foldl
      (fun newUnits data => newUnits.set data.id (snapshotUnit g.units data)) [] }

/-- The method `removePlayer(playerId)`. The loop walks over the entries of
`this.units` and deletes the entry it stands on when the owner is `playerId`;
a `Map` goes on with the next entry after such a deletion, so the walk is the
walk over the entries the collection had at the start. -/
def removePlayer (g : Game α) (playerId : String) : Game α :=
  { g with
    players := g.players.delete playerId
    units := g.units.foldl
      (fun units e => if e.2.owner = playerId then units.delete e.1 else units) g.units }

/-- One call of `gameLoop()`, with the calls of `this.network.broadcast(channel,
data)` it makes. Drawing and the request for the next frame are left out. -/
def gameLoop [FloorRing α] (sqrt : α → α) (g : Game α) :
    Game α × List (String × Snapshot α) :=
  if !g.running then (g, [])
  else if g.isHost then
    let tick := g.tick + 1
    let units : JsMap Nat (Unit α) := g.units.map (fun e => (e.1, e.2.update sqrt))
    let g' := { g with tick := tick, units := units }
    if tick % 4 = 0 then
      (g', [("reliable", { tick := tick, units := units.values.map Unit.serialize })])
    else (g', [])
  else (g, [])

/-- The first `n` calls of `gameLoop()`, each requested by the one before, with
the broadcasts in their order. -/
def gameLoops [FloorRing α] (sqrt : α → α) : Nat → Game α →
    Game α × List (String × Snapshot α)
  | 0, g => (g, [])
  | n + 1, g =>
    let r := g.gameLoop sqrt
    let r' := gameLoops sqrt n r.1
    (r'.1, r.2 ++ r'.2)

end Game

/-- What a `move` of player `p` may do to an entry of the unit collection: the
entry `b` has the key of `a` and the unit of `a` up to its target, and is `a`
itself when the owner is not `p`. -/
abbrev SameButTarget {α : Type} (p : String) (a b : Nat × Unit α) : Prop :=
  b.1 = a.1 ∧ b.2 = { a.2 with targetX := b.2.targetX, targetY := b.2.targetY } ∧
    (a.2.owner ≠ p → b.2 = a.2)

/-! ## Lemmas about `JsMap` -/

namespace JsMap

variable {κ ν : Type} [DecidableEq κ]

theorem get_set_self (m : JsMap κ ν) (k : κ) (v : ν) : (m.set k v).get k = some v := by
  induction m with
  | nil => simp [set, get]
  | cons e rest ih =>
    obtain ⟨k', v'⟩ := e
    by_cases h : k' = k
    · simp [set, get, h]
    · simp [set, get, h, ih]

theorem get_set_ne (m : JsMap κ ν) {k k' : κ} (v : ν) (h : k' ≠ k) :
    (m.set k v).get k' = m.get k' := by
  induction m with
  | nil => simp [set, get, Ne.symm h]
  | cons e rest ih =>
    obtain ⟨k0, v0⟩ := e
    by_cases h0 : k0 = k
    · subst h0
      simp [set, get, Ne.symm h]
    · by_cases h1 : k0 = k'
      · subst h1
        simp [set, get, h0]
      · simp [set, get, h0, h1, ih]

theorem get_delete_self (m : JsMap κ ν) (k : κ) : (m.delete k).get k = none := by
  induction m with
  | nil => simp [delete, get]
  | cons e rest ih =>
    obtain ⟨k0, v0⟩ := e
    by_cases h0 : k0 = k
    · simpa [delete, List.filter_cons, h0] using ih
    · simpa [delete, List.filter_cons, h0, get] using ih

theorem get_delete_ne (m : JsMap κ ν) {k k' : κ} (h : k' ≠ k) :
    (m.delete k).get k' = m.get k' := by
  induction m with
  | nil => simp [delete, get]
  | cons e rest ih =>
    obtain ⟨k0, v0⟩ := e
    by_cases h0 : k0 = k
    · subst h0
      simpa [delete, List.filter_cons, get, Ne.symm h] using ih
    · by_cases h1 : k0 = k'
      · subst h1
        simp [delete, List.filter_cons, h0, get]
      · simpa [delete, List.filter_cons, h0, get, h1] using ih

theorem set_of_get_none (m : JsMap κ ν) (k : κ) (v : ν) (h : m.get k = none) :
    m.set k v = m ++ [(k, v)] := by
  induction m with
  | nil => simp [set]
  | cons e rest ih =>
    obtain ⟨k0, v0⟩ := e
    by_cases h0 : k0 = k
    · simp [get, h0] at h
    · simp only [get, h0, if_false] at h
      simp [set, h0, ih h]

theorem not_mem_keys_delete (m : JsMap κ ν) (k : κ) : k ∉ (m.delete k).keys := by
  simp [keys, delete, List.mem_map, List.mem_filter]

theorem head_keys_set (m : JsMap κ ν) (k : κ) (v : ν) {h : κ}
    (hm : m.keys.head? = some h) : (m.set k v).keys.head? = some h := by
  cases m with
  | nil => simp [keys] at hm
  | cons e rest =>
    obtain ⟨k0, v0⟩ := e
    simp only [keys, List.map_cons, List.head?_cons, Option.some.injEq] at hm
    subst hm
    by_cases h0 : k0 = k
    · simp [set, keys, h0]
    · simp [set, keys, h0]

theorem head_keys_delete (m : JsMap κ ν) {k h : κ}
    (hm : m.keys.head? = some h) (hk : h ≠ k) : (m.delete k).keys.head? = some h := by
  cases m with
  | nil => simp [keys] at hm
  | cons e rest =>
    obtain ⟨k0, v0⟩ := e
    simp only [keys, List.map_cons, List.head?_cons, Option.some.injEq] at hm
    subst hm
    simp [delete, List.filter_cons, hk, keys]

theorem delete_eq_nil_iff (m : JsMap κ ν) (k : κ) :
    m.delete k = [] ↔ ∀ k' ∈ m.keys, k' = k := by
  simp [delete, keys, List.filter_eq_nil_iff]

theorem get_eq_none_of_not_mem_keys (m : JsMap κ ν) (k : κ) (h : k ∉ m.keys) :
    m.get k = none := by
  induction m with
  | nil => rfl
  | cons e rest ih =>
    obtain ⟨k0, v0⟩ := e
    simp only [keys, List.map_cons, List.mem_cons, not_or] at h
    simp only [get, Ne.symm h.1, if_false]
    exact ih h.2

theorem mem_set (m : JsMap κ ν) (k : κ) (v : ν) (e : κ × ν) (h : e ∈ m.set k v) :
    e ∈ m ∨ e = (k, v) := by
  induction m with
  | nil =>
    simp only [set, List.mem_singleton] at h
    exact Or.inr h
  | cons e0 rest ih =>
    obtain ⟨k0, v0⟩ := e0
    by_cases h0 : k0 = k
    · simp only [set, h0, if_true, List.mem_cons] at h
      rcases h with h | h
      · exact Or.inr h
      · exact Or.inl (List.mem_cons_of_mem _ h)
    · simp only [set, h0, if_false, List.mem_cons] at h
      rcases h with h | h
      · exact Or.inl (h ▸ List.mem_cons_self _ _)
      · rcases ih h with h' | h'
        · exact Or.inl (List.mem_cons_of_mem _ h')
        · exact Or.inr h'

theorem set_ne_nil (m : JsMap κ ν) (k : κ) (v : ν) : m.set k v ≠ [] := by
  cases m with
  | nil => simp [set]
  | cons e0 rest =>
    obtain ⟨k0, v0⟩ := e0
    by_cases h0 : k0 = k <;> simp [set, h0]

theorem mem_of_get (m : JsMap κ ν) (k : κ) (v : ν) (h : m.get k = some v) :
    (k, v) ∈ m := by
  induction m with
  | nil => simp [get] at h
  | cons e rest ih =>
    obtain ⟨k0, v0⟩ := e
    by_cases h0 : k0 = k
    · simp only [get, h0, if_true, Option.some.injEq] at h
      subst h0 h
      exact List.mem_cons_self _ _
    · simp only [get, h0, if_false] at h
      exact List.mem_cons_of_mem _ (ih h)

theorem keys_set (m : JsMap κ ν) (k : κ) (v : ν) :
    (m.set k v).keys = if k ∈ m.keys then m.keys else m.keys ++ [k] := by
  induction m with
  | nil => simp [set, keys]
  | cons e rest ih =>
    obtain ⟨k0, v0⟩ := e
    by_cases h0 : k0 = k
    · simp [set, keys, h0]
    · have ih' : List.map Prod.fst (set rest k v)
          = if k ∈ List.map Prod.fst rest then List.map Prod.fst rest
            else List.map Prod.fst rest ++ [k] := ih
      have hne : ¬ k = k0 := fun e => h0 e.symm
      simp only [set, h0, if_false, keys, List.map_cons, List.mem_cons, hne, false_or, ih']
      split <;> simp

theorem nodup_keys_set (m : JsMap κ ν) (k : κ) (v : ν) (h : m.keys.Nodup) :
    (m.set k v).keys.Nodup := by
  rw [keys_set]
  split
  · exact h
  · rename_i hk
    exact List.Nodup.append h (List.nodup_singleton k) (by simpa using hk)

theorem ext_of_nodup_keys (m1 m2 : JsMap κ ν) (hk : m1.keys = m2.keys)
    (hnd : m1.keys.Nodup) (hget : ∀ k, m1.get k = m2.get k) : m1 = m2 := by
  induction m1 generalizing m2 with
  | nil =>
    cases m2 with
    | nil => rfl
    | cons e rest => simp [keys] at hk
  | cons e1 r1 ih =>
    cases m2 with
    | nil => simp [keys] at hk
    | cons e2 r2 =>
      obtain ⟨k1, v1⟩ := e1
      obtain ⟨k2, v2⟩ := e2
      simp only [keys, List.map_cons, List.cons.injEq] at hk
      obtain ⟨hk1, hkr⟩ := hk
      subst hk1
      simp only [keys, List.map_cons, List.nodup_cons] at hnd
      have hv : v1 = v2 := by
        have := hget k1
        simpa [get] using this
      subst hv
      have htail : r1 = r2 := by
        apply ih r2 hkr hnd.2
        intro k
        by_cases hkk : k1 = k
        · subst hkk
          rw [get_eq_none_of_not_mem_keys r1 k1 hnd.1,
            get_eq_none_of_not_mem_keys r2 k1 (by rw [keys, ← hkr]; exact hnd.1)]
        · have := hget k
          simpa [get, hkk] using this
      rw [htail]

section foldSet

variable {δ : Type} (key : δ → κ) (f g : δ → ν)

theorem get_foldl_set_of_forall_ne (ds : List δ) (acc : JsMap κ ν) (k : κ)
    (h : ∀ e ∈ ds, key e ≠ k) :
    (ds.foldl (fun m d => m.set (key d) (f d)) acc).get k = acc.get k := by
  induction ds generalizing acc with
  | nil => rfl
  | cons d rest ih =>
    simp only [List.foldl_cons]
    rw [ih _ (fun e he => h e (List.mem_cons_of_mem _ he))]
    exact get_set_ne acc (f d) (Ne.symm (h d (List.mem_cons_self _ _)))

theorem get_foldl_set_last (pre post : List δ) (d : δ) (acc : JsMap κ ν)
    (h : ∀ e ∈ post, key e ≠ key d) :
    ((pre ++ d :: post).foldl (fun m d => m.set (key d) (f d)) acc).get (key d)
      = some (f d) := by
  rw [List.foldl_append, List.foldl_cons, get_foldl_set_of_forall_ne key f post _ _ h,
    get_set_self]

theorem keys_foldl_set (ds : List δ) (acc1 acc2 : JsMap κ ν) (h : acc1.keys = acc2.keys) :
    (ds.foldl (fun m d => m.set (key d) (f d)) acc1).keys
      = (ds.foldl (fun m d => m.set (key d) (g d)) acc2).keys := by
  induction ds generalizing acc1 acc2 with
  | nil => exact h
  | cons d rest ih =>
    simp only [List.foldl_cons]
    apply ih
    rw [keys_set, keys_set, h]

theorem nodup_keys_foldl_set (ds : List δ) (acc : JsMap κ ν) (h : acc.keys.Nodup) :
    (ds.foldl (fun m d => m.set (key d) (f d)) acc).keys.Nodup := by
  induction ds generalizing acc with
  | nil => exact h
  | cons d rest ih =>
    simp only [List.foldl_cons]
    exact ih _ (nodup_keys_set acc _ _ h)

theorem exists_last_with_key (ds : List δ) (k : κ) (h : ∃ d ∈ ds, key d = k) :
    ∃ pre d post, ds = pre ++ d :: post ∧ key d = k ∧ ∀ e ∈ post, key e ≠ k := by
  induction ds with
  | nil => simp at h
  | cons a rest ih =>
    by_cases hr : ∃ d ∈ rest, key d = k
    · obtain ⟨pre, d, post, hds, hd, hpost⟩ := ih hr
      exact ⟨a :: pre, d, post, by rw [hds]; rfl, hd, hpost⟩
    · obtain ⟨d, hd, hdk⟩ := h
      rcases List.mem_cons.1 hd with rfl | hd'
      · exact ⟨[], d, rest, rfl, hdk, fun e he hek => hr ⟨e, he, hek⟩⟩
      · exact absurd ⟨d, hd', hdk⟩ hr

theorem foldl_set_of_nodup (ds : List δ) (acc : JsMap κ ν) (hnd : (ds.map key).Nodup)
    (hacc : ∀ d ∈ ds, acc.get (key d) = none) :
    ds.foldl (fun m d => m.set (key d) (f d)) acc
      = acc ++ ds.map (fun d => (key d, f d)) := by
  induction ds generalizing acc with
  | nil => simp
  | cons d rest ih =>
    simp only [List.map_cons, List.nodup_cons, List.mem_map, not_exists, not_and] at hnd
    simp only [List.foldl_cons]
    rw [ih _ hnd.2, set_of_get_none acc _ _ (hacc d (List.mem_cons_self _ _))]
    · simp
    · intro e he
      rw [get_set_ne acc (f d) (hnd.1 e he), hacc e (List.mem_cons_of_mem _ he)]

theorem get_map_of_nodup (ds : List δ) (d : δ) (hnd : (ds.map key).Nodup) (hd : d ∈ ds) :
    get (ds.map (fun d => (key d, f d))) (key d) = some (f d) := by
  induction ds with
  | nil => simp at hd
  | cons a rest ih =>
    simp only [List.map_cons, List.nodup_cons, List.mem_map, not_exists, not_and] at hnd
    rcases List.mem_cons.1 hd with rfl | hd'
    · simp [get]
    · have hne : key a ≠ key d := fun e => hnd.1 d hd' e.symm
      simp only [List.map_cons, get, hne, if_false]
      exact ih hnd.2 hd'

end foldSet

end JsMap

/-! ## Theorems -/

/-- C1 (evaluation of the code): on the initiator, `createChannels()` registers
both channels, and when the reliable channel alone reports open the `onopen`
handler already calls `onChannelReady`: one call has been made although the
fast channel has not opened. When the fast channel opens as well the callback
is called a second time. -/
theorem ready_called_after_single_open :
    PeerConnection.run PeerConnection.new [.setup "reliable", .setup "fast"]
      = PeerConnection.createChannels PeerConnection.new ∧
    (PeerConnection.run PeerConnection.new
        [.setup "reliable", .setup "fast", .opens "reliable"]).readyCalls = 1 ∧
    (PeerConnection.run PeerConnection.new
        [.setup "reliable", .setup "fast", .opens "reliable"]).opened = ["reliable"] ∧
    (PeerConnection.run PeerConnection.new
        [.setup "reliable", .setup "fast", .opens "reliable", .opens "fast"]).readyCalls
      = 2 := by
  decide

/-- C2: a `join` that names a room id which is not a key of the rooms table
sends the single message `error not_found` to the requester and returns the
rooms table and the connection's variables (its current room among them) as
they were. -/
theorem join_unknown_room_not_found (rooms : Rooms) (c : Conn) (room rnd : String)
    (h : rooms.get room = none) :
    onMessage rooms c (.join room) rnd = (rooms, c, [(c.ws, .error "not_found")]) := by
  simp [onMessage, h]

/-- Witness of C2: a relay with the room `ab12`, asked to join `zz99`. -/
theorem join_unknown_room_not_found_witness :
    JsMap.get ([("ab12", [("p1", 0)])] : Rooms) "zz99" = none ∧
    onMessage [("ab12", [("p1", 0)])] ⟨1, none, "p2"⟩ (.join "zz99") "r"
      = ([("ab12", [("p1", 0)])], ⟨1, none, "p2"⟩, [(1, .error "not_found")]) :=
  ⟨by decide, join_unknown_room_not_found _ _ _ _ (by decide)⟩

/-- C3 (counterexample): connection 0 creates room `r1` and then room `r2`, so
that its `roomId` variable names `r2`, and closes. It was the only member of
`r1`, yet `r1` stays in the table with `p1` as its member, and the `join` of
`r1` that connection 1 sends afterwards is answered with `joined`. -/
theorem stale_room_survives_close :
    (Relay.run Relay.empty
        [.connection 0 "p1", .message 0 .create "r1", .message 0 .create "r2", .close 0]).1
      = { rooms := [("r1", [("p1", 0)])], conns := [] } ∧
    (Relay.run Relay.empty
        [.connection 0 "p1", .message 0 .create "r1", .message 0 .create "r2", .close 0,
         .connection 1 "p2", .message 1 (.join "r1") ""]).2
      = [(0, .created "r1" "p1"), (0, .created "r2" "p1"), (1, .joined "r1" "p2"),
         (1, .peers "r1" ["p1", "p2"]), (0, .peers "r1" ["p1", "p2"])] := by
  decide

/-- The `close` handler where the `roomId` variable names a live room: the
peer id is removed from that room; the room is deleted exactly when no other
member is left, and then a `join` of that id is answered with `not_found`; if
the room remains it is non-empty and without the closed peer; every other room
is left as it was. -/
theorem close_cleans_current_room (rooms : Rooms) (c : Conn) (rid : String) (room : Room)
    (hcur : c.roomId = some rid) (hroom : rooms.get rid = some room) :
    ((onClose rooms c).1.get rid = none ↔ ∀ k ∈ room.keys, k = c.peerId) ∧
    ((∀ k ∈ room.keys, k = c.peerId) → ∀ (c2 : Conn) (rnd : String),
      onMessage (onClose rooms c).1 c2 (.join rid) rnd
        = ((onClose rooms c).1, c2, [(c2.ws, .error "not_found")])) ∧
    (∀ room', (onClose rooms c).1.get rid = some room' →
      room' = room.delete c.peerId ∧ c.peerId ∉ room'.keys ∧ room' ≠ []) ∧
    (∀ r, r ≠ rid → (onClose rooms c).1.get r = rooms.get r) := by
  have hiff : (onClose rooms c).1.get rid = none ↔ ∀ k ∈ room.keys, k = c.peerId := by
    by_cases hz : room.delete c.peerId = []
    · have : (onClose rooms c).1 = rooms.delete rid := by
        simp [onClose, hcur, hroom, JsMap.size, hz]
      rw [this, JsMap.get_delete_self]
      simpa using (JsMap.delete_eq_nil_iff room c.peerId).1 hz
    · have : (onClose rooms c).1 = rooms.set rid (room.delete c.peerId) := by
        simp [onClose, hcur, hroom, JsMap.size, hz]
      rw [this, JsMap.get_set_self]
      simpa using fun h => hz ((JsMap.delete_eq_nil_iff room c.peerId).2 h)
  refine ⟨hiff, ?_, ?_, ?_⟩
  · intro hall c2 rnd
    simp [onMessage, hiff.2 hall]
  · intro room' hget
    by_cases hz : room.delete c.peerId = []
    · have : (onClose rooms c).1 = rooms.delete rid := by
        simp [onClose, hcur, hroom, JsMap.size, hz]
      rw [this, JsMap.get_delete_self] at hget
      cases hget
    · have : (onClose rooms c).1 = rooms.set rid (room.delete c.peerId) := by
        simp [onClose, hcur, hroom, JsMap.size, hz]
      rw [this, JsMap.get_set_self] at hget
      cases hget
      exact ⟨rfl, JsMap.not_mem_keys_delete room c.peerId, hz⟩
  · intro r hr
    by_cases hz : room.delete c.peerId = []
    · have : (onClose rooms c).1 = rooms.delete rid := by
        simp [onClose, hcur, hroom, JsMap.size, hz]
      rw [this, JsMap.get_delete_ne _ hr]
    · have : (onClose rooms c).1 = rooms.set rid (room.delete c.peerId) := by
        simp [onClose, hcur, hroom, JsMap.size, hz]
      rw [this, JsMap.get_set_ne _ _ hr]

theorem run_append (r : Relay) (a b : List RelayEvent) :
    (Relay.run r (a ++ b)).1 = (Relay.run (Relay.run r a).1 b).1 := by
  induction a generalizing r with
  | nil => rfl
  | cons e es ih =>
    simp only [List.cons_append, Relay.run]
    exact ih _

theorem onMessage_keeps_conn (rooms : Rooms) (c : Conn) (msg : ClientMsg) (rnd : String)
    (hc : msg ≠ .create) (hj : ∀ room, msg ≠ .join room) :
    (onMessage rooms c msg rnd).2.1 = c := by
  cases msg with
  | create => exact absurd rfl hc
  | join r => exact absurd rfl (hj r)
  | signal r dest payload =>
    simp only [onMessage]
    split
    · rfl
    · split
      · split
        · rfl
        · split <;> rfl
      · split <;> rfl
  | other t => rfl

theorem step_keeps_conn (r : Relay) (ws : Nat) (c : Conn) (e : RelayEvent)
    (hget : r.conns.get ws = some c)
    (he : e ≠ .close ws ∧ (∀ p, e ≠ .connection ws p) ∧
      (∀ rnd, e ≠ .message ws .create rnd) ∧ ∀ room rnd, e ≠ .message ws (.join room) rnd) :
    (r.step e).1.conns.get ws = some c := by
  obtain ⟨hcl, hco, hcr, hjo⟩ := he
  cases e with
  | connection w p =>
    have hw : ws ≠ w := fun h => hco p (h ▸ rfl)
    simp only [Relay.step]
    rw [JsMap.get_set_ne _ _ hw]
    exact hget
  | message w m rnd =>
    simp only [Relay.step]
    cases hw : r.conns.get w with
    | none => exact hget
    | some c' =>
      simp only
      by_cases hww : ws = w
      · subst hww
        rw [hget] at hw
        cases hw
        rw [JsMap.get_set_self,
          onMessage_keeps_conn r.rooms c m rnd (fun h => hcr rnd (h ▸ rfl))
            (fun room h => hjo room rnd (h ▸ rfl))]
      · rw [JsMap.get_set_ne _ _ hww]
        exact hget
  | close w =>
    have hw : ws ≠ w := fun h => hcl (h ▸ rfl)
    simp only [Relay.step]
    cases r.conns.get w with
    | none => exact hget
    | some c' =>
      simp only
      rw [JsMap.get_delete_ne _ hw]
      exact hget

theorem run_keeps_conn (mid : List RelayEvent) (r : Relay) (ws : Nat) (c : Conn)
    (hget : r.conns.get ws = some c)
    (hmid : ∀ e ∈ mid, e ≠ .close ws ∧ (∀ p, e ≠ .connection ws p) ∧
      (∀ rnd, e ≠ .message ws .create rnd) ∧ ∀ room rnd, e ≠ .message ws (.join room) rnd) :
    (Relay.run r mid).1.conns.get ws = some c := by
  induction mid generalizing r with
  | nil => exact hget
  | cons e es ih =>
    simp only [Relay.run]
    exact ih _ (step_keeps_conn r ws c e hget (hmid e (List.mem_cons_self _ _)))
      (fun e' he' => hmid e' (List.mem_cons_of_mem _ he'))

theorem onMessage_rooms_nonempty (rooms : Rooms) (c : Conn) (msg : ClientMsg) (rnd : String)
    (h : ∀ e ∈ rooms, e.2 ≠ []) : ∀ e ∈ (onMessage rooms c msg rnd).1, e.2 ≠ [] := by
  cases msg with
  | create =>
    intro e he
    simp only [onMessage] at he
    rcases JsMap.mem_set _ _ _ _ he with h' | h'
    · exact h e h'
    · rw [h']; simp
  | join r =>
    simp only [onMessage]
    split
    · exact h
    · intro e he
      rcases JsMap.mem_set _ _ _ _ he with h' | h'
      · exact h e h'
      · rw [h']; exact JsMap.set_ne_nil _ _ _
  | signal r dest payload =>
    simp only [onMessage]
    split
    · exact h
    · split
      · split
        · exact h
        · split <;> exact h
      · split <;> exact h
  | other t => exact h

theorem onClose_rooms_nonempty (rooms : Rooms) (c : Conn)
    (h : ∀ e ∈ rooms, e.2 ≠ []) : ∀ e ∈ (onClose rooms c).1, e.2 ≠ [] := by
  simp only [onClose]
  split
  · exact h
  · split
    · exact h
    · split
      · intro e he
        simp only [JsMap.delete, List.mem_filter] at he
        exact h e he.1
      · rename_i hz
        intro e he
        rcases JsMap.mem_set _ _ _ _ he with h' | h'
        · exact h e h'
        · rw [h']
          intro hnil
          apply hz
          simp only at hnil
          simp [JsMap.size, hnil]

theorem step_rooms_nonempty (r : Relay) (e : RelayEvent)
    (h : ∀ x ∈ r.rooms, x.2 ≠ []) : ∀ x ∈ (r.step e).1.rooms, x.2 ≠ [] := by
  cases e with
  | connection w p => exact h
  | message w m rnd =>
    simp only [Relay.step]
    cases r.conns.get w with
    | none => exact h
    | some c => exact onMessage_rooms_nonempty r.rooms c m rnd h
  | close w =>
    simp only [Relay.step]
    cases r.conns.get w with
    | none => exact h
    | some c => exact onClose_rooms_nonempty r.rooms c h

theorem run_rooms_nonempty (evs : List RelayEvent) (r : Relay)
    (h : ∀ x ∈ r.rooms, x.2 ≠ []) : ∀ x ∈ (Relay.run r evs).1.rooms, x.2 ≠ [] := by
  induction evs generalizing r with
  | nil => exact h
  | cons e es ih =>
    simp only [Relay.run]
    exact ih _ (step_rooms_nonempty r e h)

/-- C3 (amended): in the relay reached from the empty relay by the events
`evs`, a live connection `ws` creates the room `rid` or joins the live room
`rid`; events follow in which `ws` neither creates nor joins again (nor closes
nor is opened anew), and then `ws` closes. After the close its peer id is not
a member of the room `rid`; if just before the close every member of `rid` had
that peer id, the room `rid` is gone from the table and a `join` of `rid` by
any live connection is answered with `not_found` alone and leaves the rooms as
they are. No room of the table is without members. A room that `ws` entered
before `rid` is not covered. -/
theorem close_cleans_last_entered_room (evs mid : List RelayEvent) (ws : Nat) (c : Conn)
    (msg : ClientMsg) (rnd rid : String)
    (hlive : (Relay.run Relay.empty evs).1.conns.get ws = some c)
    (henter : (msg = .create ∧ rid = rnd) ∨
      (msg = .join rid ∧ (Relay.run Relay.empty evs).1.rooms.get rid ≠ none))
    (hmid : ∀ e ∈ mid, e ≠ .close ws ∧ (∀ p, e ≠ .connection ws p) ∧
      (∀ rnd', e ≠ .message ws .create rnd') ∧
      ∀ room rnd', e ≠ .message ws (.join room) rnd') :
    (∀ room,
      (Relay.run Relay.empty (evs ++ (.message ws msg rnd :: mid) ++ [.close ws])).1.rooms.get rid
        = some room → c.peerId ∉ room.keys) ∧
    (∀ room,
      (Relay.run Relay.empty (evs ++ (.message ws msg rnd :: mid))).1.rooms.get rid = some room →
      (∀ k ∈ room.keys, k = c.peerId) →
      (Relay.run Relay.empty (evs ++ (.message ws msg rnd :: mid) ++ [.close ws])).1.rooms.get rid
        = none ∧
      ∀ (ws2 : Nat) (c2 : Conn) (rnd2 : String),
        (Relay.run Relay.empty
          (evs ++ (.message ws msg rnd :: mid) ++ [.close ws])).1.conns.get ws2 = some c2 →
        ((Relay.run Relay.empty (evs ++ (.message ws msg rnd :: mid) ++ [.close ws])).1.step
            (.message ws2 (.join rid) rnd2)).2 = [(c2.ws, .error "not_found")] ∧
        ((Relay.run Relay.empty (evs ++ (.message ws msg rnd :: mid) ++ [.close ws])).1.step
            (.message ws2 (.join rid) rnd2)).1.rooms
          = (Relay.run Relay.empty
              (evs ++ (.message ws msg rnd :: mid) ++ [.close ws])).1.rooms) ∧
    (∀ x ∈ (Relay.run Relay.empty
        (evs ++ (.message ws msg rnd :: mid) ++ [.close ws])).1.rooms, x.2 ≠ []) := by
  -- the relay before the entering message, after it, and just before the close
  have hbefore : (Relay.run Relay.empty (evs ++ (.message ws msg rnd :: mid))).1
      = (Relay.run ((Relay.run Relay.empty evs).1.step (.message ws msg rnd)).1 mid).1 := by
    rw [run_append]
    rfl
  have hafter : (Relay.run Relay.empty (evs ++ (.message ws msg rnd :: mid) ++ [.close ws])).1
      = ((Relay.run Relay.empty (evs ++ (.message ws msg rnd :: mid))).1.step (.close ws)).1 := by
    rw [run_append]
    rfl
  -- the entering message stores the room id in the connection
  have hconn1 : ((Relay.run Relay.empty evs).1.step (.message ws msg rnd)).1.conns.get ws
      = some { c with roomId := some rid } := by
    rcases henter with ⟨hm, hr⟩ | ⟨hm, hr⟩
    · subst hm hr
      simp only [Relay.step, hlive, onMessage]
      rw [JsMap.get_set_self]
    · subst hm
      cases hroom : (Relay.run Relay.empty evs).1.rooms.get rid with
      | none => exact absurd hroom hr
      | some room =>
        simp only [Relay.step, hlive, onMessage, hroom]
        rw [JsMap.get_set_self]
  have hconn2 : (Relay.run Relay.empty (evs ++ (.message ws msg rnd :: mid))).1.conns.get ws
      = some { c with roomId := some rid } := by
    rw [hbefore]
    exact run_keeps_conn mid _ ws _ hconn1 hmid
  have hrooms : (Relay.run Relay.empty (evs ++ (.message ws msg rnd :: mid) ++ [.close ws])).1.rooms
      = (onClose (Relay.run Relay.empty (evs ++ (.message ws msg rnd :: mid))).1.rooms
          { c with roomId := some rid }).1 := by
    rw [hafter]
    simp only [Relay.step, hconn2]
  refine ⟨?_, ?_, ?_⟩
  · intro room hget
    rw [hrooms] at hget
    cases hb : (Relay.run Relay.empty (evs ++ (.message ws msg rnd :: mid))).1.rooms.get rid with
    | none =>
      have : (onClose (Relay.run Relay.empty (evs ++ (.message ws msg rnd :: mid))).1.rooms
          { c with roomId := some rid }).1
          = (Relay.run Relay.empty (evs ++ (.message ws msg rnd :: mid))).1.rooms := by
        simp [onClose, hb]
      rw [this, hb] at hget
      cases hget
    | some room2 =>
      exact ((close_cleans_current_room _ { c with roomId := some rid } rid room2 rfl hb).2.2.1
        room hget).2.1
  · intro room hb hall
    have hnone : (Relay.run Relay.empty
        (evs ++ (.message ws msg rnd :: mid) ++ [.close ws])).1.rooms.get rid = none := by
      rw [hrooms]
      exact (close_cleans_current_room _ { c with roomId := some rid } rid room rfl hb).1.2 hall
    refine ⟨hnone, ?_⟩
    intro ws2 c2 rnd2 hc2
    simp only [Relay.step, hc2, onMessage, hnone]
    exact ⟨trivial, trivial⟩
  · exact run_rooms_nonempty _ Relay.empty (by intro x hx; cases hx)

/-- Witness of C3 (amended): `p1` creates `ab12`, `p2` joins and is signalled
by `p1`, and `p1` closes. -/
theorem close_cleans_last_entered_room_witness :
    (Relay.run Relay.empty [.connection 0 "p1"]).1.conns.get 0 = some ⟨0, none, "p1"⟩ ∧
    ∀ room,
      (Relay.run Relay.empty
        ([.connection 0 "p1"] ++
          (.message 0 .create "ab12" ::
            [.connection 1 "p2", .message 1 (.join "ab12") "",
              .message 0 (.signal "ab12" "p2" "offer") ""]) ++ [.close 0])).1.rooms.get "ab12"
        = some room → "p1" ∉ room.keys :=
  ⟨by decide,
    (close_cleans_last_entered_room [.connection 0 "p1"]
      [.connection 1 "p2", .message 1 (.join "ab12") "",
        .message 0 (.signal "ab12" "p2" "offer") ""]
      0 ⟨0, none, "p1"⟩ .create "ab12" "ab12" (by decide) (Or.inl ⟨rfl, rfl⟩)
      (by
        intro e he
        simp only [List.mem_cons, List.mem_singleton, List.not_mem_nil, or_false] at he
        rcases he with rfl | rfl | rfl <;> simp)).1⟩

/-- C4 (counterexample): connection 1 draws the room id `ab12` while the room
`ab12` of connection 0 is live; `create` stores the new room under that id and
the membership `p1` of the live room is replaced by `p2`. -/
theorem create_replaces_live_room :
    (Relay.run Relay.empty [.connection 0 "p1", .message 0 .create "ab12"]).1.rooms
      = [("ab12", [("p1", 0)])] ∧
    (Relay.run Relay.empty
        [.connection 0 "p1", .message 0 .create "ab12",
         .connection 1 "p2", .message 1 .create "ab12"]).1.rooms
      = [("ab12", [("p2", 1)])] := by
  decide

/-- C4 (amended): `create` stores a room whose only member is the requester
under the id that was drawn, whatever it is. Every room with another id keeps
its membership, and when the drawn id is not the id of a live room the table
is the old table followed by the new room. -/
theorem create_keeps_other_rooms (rooms : Rooms) (c : Conn) (rnd : String) :
    (onMessage rooms c .create rnd).1.get rnd = some [(c.peerId, c.ws)] ∧
    (∀ r, r ≠ rnd → (onMessage rooms c .create rnd).1.get r = rooms.get r) ∧
    (rooms.get rnd = none →
      (onMessage rooms c .create rnd).1 = rooms ++ [(rnd, [(c.peerId, c.ws)])]) := by
  refine ⟨?_, ?_, ?_⟩
  · simp [onMessage, JsMap.get_set_self]
  · intro r hr
    simp [onMessage, JsMap.get_set_ne _ _ hr]
  · intro h
    simp [onMessage, JsMap.set_of_get_none _ _ _ h]

/-- Witness of C4 (amended): a second room created under a fresh id. -/
theorem create_keeps_other_rooms_witness :
    JsMap.get ([("ab12", [("p1", 0)])] : Rooms) "cd34" = none ∧
    (onMessage [("ab12", [("p1", 0)])] ⟨1, none, "p2"⟩ .create "cd34").1
      = [("ab12", [("p1", 0)])] ++ [("cd34", [("p2", 1)])] :=
  ⟨by decide,
    (create_keeps_other_rooms [("ab12", [("p1", 0)])] ⟨1, none, "p2"⟩ "cd34").2.2
      (by decide)⟩

/-- C5 (evaluation of the code): `p1` creates `ab12`, `p2` and `p3` join, and
the creator's connection closes. The room stays live with `p2` at index 0 of
its membership list, and the `signal` that `p3` addresses to `host` is
forwarded to the socket of `p2`, which did not create the room, although the
`signal` branch takes the first key to be the creator. -/
theorem host_index_moves_when_creator_closes :
    (Relay.run Relay.empty
        [.connection 0 "p1", .message 0 .create "ab12",
         .connection 1 "p2", .message 1 (.join "ab12") "",
         .connection 2 "p3", .message 2 (.join "ab12") "", .close 0]).1.rooms
      = [("ab12", [("p2", 1), ("p3", 2)])] ∧
    (Relay.step
        (Relay.run Relay.empty
          [.connection 0 "p1", .message 0 .create "ab12",
           .connection 1 "p2", .message 1 (.join "ab12") "",
           .connection 2 "p3", .message 2 (.join "ab12") "", .close 0]).1
        (.message 2 (.signal "ab12" "host" "offer") "")).2
      = [(1, .signal "p3" "offer")] := by
  decide

/-- How the relay finds the host. Right after `create` the creator is at
index 0 of the new room. A `signal` addressed to `host` is forwarded, with the
sender's peer id and the payload as given, to the socket stored at index 0 of
the room and to no one else, and changes nothing. The peer id at index 0 of a
room stays the same under every message other than a `create` that draws the
id of that room, and under the `close` handler of every connection other than
one whose `roomId` names the room and whose peer id is the one at index 0. -/
theorem host_is_first_member (rooms : Rooms) (c : Conn) (rnd : String) :
    hostId (onMessage rooms c .create rnd).1 rnd = some c.peerId ∧
    (∀ (r h : String) (ws : Nat) (rest : Room) (payload : Payload),
      rooms.get r = some ((h, ws) :: rest) →
      onMessage rooms c (.signal r "host" payload) rnd
        = (rooms, c, [(ws, .signal c.peerId payload)])) ∧
    (∀ (msg : ClientMsg) (r h : String), hostId rooms r = some h →
      (msg = .create → r ≠ rnd) → hostId (onMessage rooms c msg rnd).1 r = some h) ∧
    (∀ (r h : String), hostId rooms r = some h →
      ¬ (c.roomId = some r ∧ c.peerId = h) → hostId (onClose rooms c).1 r = some h) := by
  refine ⟨?_, ?_, ?_, ?_⟩
  · simp [hostId, onMessage, JsMap.get_set_self, JsMap.keys]
  · intro r h ws rest payload hr
    simp [onMessage, hr, JsMap.keys, JsMap.get]
  · intro msg r h hh hne
    cases msg with
    | create =>
      have hr : r ≠ rnd := hne rfl
      simpa [hostId, onMessage, JsMap.get_set_ne _ _ hr] using hh
    | join r' =>
      cases hget : rooms.get r' with
      | none => simpa [onMessage, hget] using hh
      | some room =>
        by_cases hrr : r = r'
        · subst hrr
          have hhead : room.keys.head? = some h := by simpa [hostId, hget] using hh
          simp [hostId, onMessage, hget, JsMap.get_set_self,
            JsMap.head_keys_set room c.peerId c.ws hhead]
        · simpa [hostId, onMessage, hget, JsMap.get_set_ne _ _ hrr] using hh
    | signal r' dest payload =>
      have : (onMessage rooms c (.signal r' dest payload) rnd).1 = rooms := by
        simp only [onMessage]
        split
        · rfl
        · split
          · split
            · rfl
            · split <;> rfl
          · split <;> rfl
      rw [this]; exact hh
    | other t => simpa [onMessage] using hh
  · intro r h hh hne
    cases hcur : c.roomId with
    | none => simpa [onClose, hcur] using hh
    | some r' =>
      cases hget : rooms.get r' with
      | none => simpa [onClose, hcur, hget] using hh
      | some room =>
        by_cases hrr : r = r'
        · subst hrr
          have hhead : room.keys.head? = some h := by simpa [hostId, hget] using hh
          have hp : h ≠ c.peerId := fun e => hne ⟨hcur, e.symm⟩
          have hhead' := JsMap.head_keys_delete room hhead hp
          have hz : room.delete c.peerId ≠ [] := by
            intro e
            rw [e] at hhead'
            simp [JsMap.keys] at hhead'
          simp [hostId, onClose, hcur, hget, JsMap.size, hz, JsMap.get_set_self, hhead']
        · by_cases hz : room.delete c.peerId = []
          · simpa [hostId, onClose, hcur, hget, JsMap.size, hz,
              JsMap.get_delete_ne _ hrr] using hh
          · simpa [hostId, onClose, hcur, hget, JsMap.size, hz,
              JsMap.get_set_ne _ _ hrr] using hh

/-- C6 (counterexample): a follower that holds unit 1 with owner `a` (from a
first snapshot) applies a snapshot whose entry for unit 1 names the owner `b`.
The unit afterwards still has owner `a`, while the same snapshot applied to an
empty collection gives owner `b`: the result depends on the prior collection. -/
theorem handleSnapshot_keeps_old_owner :
    ((((Game.new false : Game ℚ).handleSnapshot ⟨4, [⟨1, 10, 10, 10, 10, 100, "a"⟩]⟩).handleSnapshot
        ⟨8, [⟨1, 20, 30, 40, 50, 90, "b"⟩]⟩).units.get 1).map (fun u => u.owner) = some "a" ∧
    (((Game.new false : Game ℚ).handleSnapshot
        ⟨8, [⟨1, 20, 30, 40, 50, 90, "b"⟩]⟩).units.get 1).map (fun u => u.owner) = some "b" := by
  constructor <;>
    simp [Game.handleSnapshot, Game.snapshotUnit, Game.new, JsMap.set, JsMap.get, Unit.new]

/-- C6 (amended): for a snapshot with pairwise distinct unit ids,
`handleSnapshot` sets the tick to `snap.tick` and leaves a collection whose
keys are the ids of `snap.units` in their order; the unit under the id of an
entry has the entry's `x`, `y`, `tx`, `ty` and `hp`, and, the old collection
holding every unit under the unit's own id, the entry's `id`. For an id that
was not in the collection the unit has the entry's `owner` and the
constructor's `maxHp`, `speed` and `selected`; for an id that was, the unit is
the old one and keeps its `owner`, `maxHp`, `speed` and `selected`. The new
collection again holds every unit under the unit's own id. -/
theorem handleSnapshot_replaces_units {α : Type} [LinearOrderedField α]
    (g : Game α) (snap : Snapshot α) (hnd : (snap.units.map (fun d => d.id)).Nodup) :
    (g.handleSnapshot snap).tick = snap.tick ∧
    (g.handleSnapshot snap).units.keys = snap.units.map (fun d => d.id) ∧
    (∀ d ∈ snap.units, ∃ u, (g.handleSnapshot snap).units.get d.id = some u ∧
      u.x = d.x ∧ u.y = d.y ∧ u.targetX = d.tx ∧ u.targetY = d.ty ∧ u.hp = d.hp ∧
      ((∀ e ∈ g.units, e.2.id = e.1) → u.id = d.id) ∧
      (g.units.get d.id = none →
        u.id = d.id ∧ u.owner = d.owner ∧ u.maxHp = 100 ∧ u.speed = 2 ∧ u.selected = false) ∧
      (∀ old, g.units.get d.id = some old →
        u.owner = old.owner ∧ u.maxHp = old.maxHp ∧ u.speed = old.speed ∧
        u.selected = old.selected)) ∧
    ((∀ e ∈ g.units, e.2.id = e.1) → ∀ e ∈ (g.handleSnapshot snap).units, e.2.id = e.1) := by
  have hunits : (g.handleSnapshot snap).units
      = snap.units.map (fun d => (d.id, Game.snapshotUnit g.units d)) := by
    simp only [Game.handleSnapshot]
    rw [JsMap.foldl_set_of_nodup (fun d : UnitData α => d.id) (Game.snapshotUnit g.units)
      snap.units [] hnd (fun _ _ => rfl)]
    simp
  have hid : (∀ e ∈ g.units, e.2.id = e.1) → ∀ d : UnitData α,
      (Game.snapshotUnit g.units d).id = d.id := by
    intro hkey d
    cases hget : g.units.get d.id with
    | none => simp [Game.snapshotUnit, hget, Unit.new]
    | some old =>
      have := hkey _ (JsMap.mem_of_get g.units d.id old hget)
      simpa [Game.snapshotUnit, hget] using this
  refine ⟨rfl, ?_, ?_, ?_⟩
  · rw [hunits]
    simp [JsMap.keys, List.map_map, Function.comp_def]
  · intro d hd
    refine ⟨Game.snapshotUnit g.units d, ?_, rfl, rfl, rfl, rfl, rfl, ?_, ?_, ?_⟩
    · rw [hunits]
      exact JsMap.get_map_of_nodup (fun d : UnitData α => d.id) (Game.snapshotUnit g.units)
        snap.units d hnd hd
    · intro hkey
      exact hid hkey d
    · intro hnone
      simp [Game.snapshotUnit, hnone, Unit.new]
    · intro old hold
      simp [Game.snapshotUnit, hold]
  · intro hkey e he
    rw [hunits] at he
    obtain ⟨d, _, rfl⟩ := List.mem_map.1 he
    exact hid hkey d

/-- Witness of C6 (amended): a follower that holds unit 1 of owner `a` applies
a snapshot of the units 1 and 2. -/
theorem handleSnapshot_replaces_units_witness :
    (([⟨1, 20, 30, 40, 50, 90, "b"⟩, ⟨2, 21, 31, 41, 51, 91, "b"⟩] :
        List (UnitData ℚ)).map (fun d => d.id)).Nodup ∧
    (∀ e ∈ ({ (Game.new false : Game ℚ) with
        units := [(1, (Unit.new 1 10 10 "a" : Unit ℚ))] }).units, e.2.id = e.1) ∧
    (∀ e ∈ (({ (Game.new false : Game ℚ) with
        units := [(1, (Unit.new 1 10 10 "a" : Unit ℚ))] }).handleSnapshot
          ⟨8, [⟨1, 20, 30, 40, 50, 90, "b"⟩, ⟨2, 21, 31, 41, 51, 91, "b"⟩]⟩).units,
      e.2.id = e.1) :=
  ⟨by decide, by simp [Unit.new],
    (handleSnapshot_replaces_units
      ({ (Game.new false : Game ℚ) with units := [(1, (Unit.new 1 10 10 "a" : Unit ℚ))] })
      ⟨8, [⟨1, 20, 30, 40, 50, 90, "b"⟩, ⟨2, 21, 31, 41, 51, 91, "b"⟩]⟩ (by decide)).2.2.2
      (by simp [Unit.new])⟩

/-- C7: applying the same snapshot a second time returns the game as the first
application left it: the same tick and the same unit collection, with the same
keys in the same order and the same unit under every key. -/
theorem handleSnapshot_idempotent {α : Type} [LinearOrderedField α]
    (g : Game α) (snap : Snapshot α) :
    (g.handleSnapshot snap).handleSnapshot snap = g.handleSnapshot snap := by
  have hunits : ((g.handleSnapshot snap).handleSnapshot snap).units
      = (g.handleSnapshot snap).units := by
    apply JsMap.ext_of_nodup_keys
    · exact JsMap.keys_foldl_set (fun d : UnitData α => d.id) _ _ snap.units [] [] rfl
    · exact JsMap.nodup_keys_foldl_set (fun d : UnitData α => d.id) _ snap.units []
        List.nodup_nil
    · intro k
      by_cases hk : ∃ d ∈ snap.units, d.id = k
      · obtain ⟨pre, d, post, hds, hd, hpost⟩ :=
          JsMap.exists_last_with_key (fun d : UnitData α => d.id) snap.units k hk
        subst hd
        have h1 : (g.handleSnapshot snap).units.get d.id
            = some (Game.snapshotUnit g.units d) := by
          simp only [Game.handleSnapshot]
          rw [hds]
          exact JsMap.get_foldl_set_last (fun d : UnitData α => d.id) _ pre post d [] hpost
        have h2 : ((g.handleSnapshot snap).handleSnapshot snap).units.get d.id
            = some (Game.snapshotUnit (g.handleSnapshot snap).units d) := by
          simp only [Game.handleSnapshot]
          rw [hds]
          exact JsMap.get_foldl_set_last (fun d : UnitData α => d.id) _ pre post d [] hpost
        rw [h2, h1]
        congr 1
        simp only [Game.snapshotUnit, h1]
      · have hne : ∀ e ∈ snap.units, e.id ≠ k := fun e he hek => hk ⟨e, he, hek⟩
        have h1 : (g.handleSnapshot snap).units.get k = none := by
          simp only [Game.handleSnapshot]
          exact JsMap.get_foldl_set_of_forall_ne (fun d : UnitData α => d.id) _ snap.units
            [] k hne
        have h2 : ((g.handleSnapshot snap).handleSnapshot snap).units.get k = none := by
          simp only [Game.handleSnapshot]
          exact JsMap.get_foldl_set_of_forall_ne (fun d : UnitData α => d.id) _ snap.units
            [] k hne
        rw [h1, h2]
  have hrest : (g.handleSnapshot snap).handleSnapshot snap
      = { g.handleSnapshot snap with
          units := ((g.handleSnapshot snap).handleSnapshot snap).units } := rfl
  rw [hrest, hunits]

/-- C8: over the real numbers, a unit whose distance to its target is at most
its speed is put exactly on the target by one `update()`, and every further
`update()` returns the unit unchanged, so the position stays on the target. -/
theorem update_reaches_target_and_stays (u : Unit ℝ)
    (h : Real.sqrt ((u.targetX - u.x) * (u.targetX - u.x)
          + (u.targetY - u.y) * (u.targetY - u.y)) ≤ u.speed) :
    (u.update Real.sqrt).x = u.targetX ∧ (u.update Real.sqrt).y = u.targetY ∧
    ∀ n : Nat, (Unit.update Real.sqrt)^[n] (u.update Real.sqrt) = u.update Real.sqrt := by
  have hspeed : 0 ≤ u.speed := le_trans (Real.sqrt_nonneg _) h
  have h1 : u.update Real.sqrt = { u with x := u.targetX, y := u.targetY } := by
    simp only [Unit.update]
    rw [if_neg (not_lt.mpr h)]
  have h2 : Unit.update Real.sqrt (u.update Real.sqrt) = u.update Real.sqrt := by
    rw [h1]
    simp only [Unit.update, sub_self, mul_zero, add_zero, Real.sqrt_zero]
    rw [if_neg (not_lt.mpr hspeed)]
  refine ⟨by rw [h1], by rw [h1], ?_⟩
  intro n
  induction n with
  | zero => rfl
  | succ k ih => rw [Function.iterate_succ_apply, h2, ih]

/-- Witness of C8: a unit at (100, 100) with target (101, 100) and speed 2. -/
theorem update_reaches_target_and_stays_witness :
    Real.sqrt (((101 : ℝ) - 100) * (101 - 100) + (100 - 100) * (100 - 100)) ≤ 2 ∧
    (((Unit.new 1 100 100 "h" : Unit ℝ).moveTo 101 100).update Real.sqrt).x = 101 :=
  ⟨by norm_num,
    (update_reaches_target_and_stays ((Unit.new 1 100 100 "h" : Unit ℝ).moveTo 101 100)
      (by
        simp only [Unit.new, Unit.moveTo]
        norm_num)).1⟩

/-- C9 (evaluation of the code): on a host with the players `h` (itself) and
`p` (a guest), unit 4 belongs to `p` and rests at (300, 260). The input
`[['move', 50, 60]]` of `p` leaves the target of unit 4 where it was, both with
the host's selection empty and with the host's own unit 1 selected, because
`executeCommand` walks over the host's `selection`. The command carries both
coordinates, so the value of `undefined` plays no part. -/
theorem guest_move_changes_nothing (undefined : ℚ) :
    (((({ Game.new true with myPlayerId := some "h", running := true } : Game ℚ).addPlayer
        "h").addPlayer "p").units.get 4).map (fun u => (u.owner, u.targetX, u.targetY))
      = some ("p", 300, 260) ∧
    ((((({ Game.new true with myPlayerId := some "h", running := true } : Game ℚ).addPlayer
        "h").addPlayer "p").handleInput undefined "p" [⟨"move", [50, 60]⟩]).units.get 4).map
        (fun u => (u.owner, u.targetX, u.targetY))
      = some ("p", 300, 260) ∧
    ((({ ((({ Game.new true with myPlayerId := some "h", running := true } : Game ℚ).addPlayer
        "h").addPlayer "p") with selection := [1] } : Game ℚ).handleInput undefined "p"
          [⟨"move", [50, 60]⟩]).units.get 4).map
        (fun u => (u.owner, u.targetX, u.targetY))
      = some ("p", 300, 260) := by
  refine ⟨?_, ?_, ?_⟩ <;>
  · simp [Game.handleInput, Game.executeCommand, Game.addPlayer, Game.new, List.range_succ,
      JsMap.set, JsMap.get, JsMap.size, Unit.new]
    try norm_num

/-- A `move` that carries one coordinate: the host's selected unit 1 gets the
target `(50, undefined)`. -/
theorem executeCommand_short_move (undefined : ℚ) :
    ((({ (Game.new true : Game ℚ) with
        units := [(1, (Unit.new 1 200 180 "h" : Unit ℚ))], selection := [1] } :
          Game ℚ).executeCommand
          undefined "h" ⟨"move", [50]⟩).units.get 1).map (fun u => (u.targetX, u.targetY))
      = some (50, undefined) := by
  simp [Game.executeCommand, Game.new, JsMap.set, JsMap.get, Unit.new, Unit.moveTo]

theorem sameButTarget_refl {α : Type} (p : String) (m : JsMap Nat (Unit α)) :
    List.Forall₂ (SameButTarget p) m m := by
  induction m with
  | nil => exact List.Forall₂.nil
  | cons e rest ih => exact List.Forall₂.cons ⟨rfl, rfl, fun _ => rfl⟩ ih

theorem sameButTarget_set_moveTo {α : Type} (p : String)
    (m0 m : JsMap Nat (Unit α)) (k : Nat) (u : Unit α) (x y : α)
    (hrel : List.Forall₂ (SameButTarget p) m0 m) (hget : m.get k = some u)
    (hown : u.owner = p) :
    List.Forall₂ (SameButTarget p) m0 (m.set k (u.moveTo x y)) := by
  induction hrel with
  | nil => simp [JsMap.get] at hget
  | @cons a b l0 l hab htail ih =>
    obtain ⟨kb, ub⟩ := b
    by_cases hk : kb = k
    · simp only [JsMap.get, hk, if_true, Option.some.injEq] at hget
      subst hget
      simp only [JsMap.set, hk, if_true]
      refine List.Forall₂.cons ⟨?_, ?_, ?_⟩ htail
      · exact hk ▸ hab.1
      · have h2 := hab.2.1
        simp only at h2
        rw [h2]
        rfl
      · intro hne
        have h2 := congrArg Unit.owner hab.2.1
        simp only at h2
        exact absurd (h2 ▸ hown) hne
    · simp only [JsMap.get, hk, if_false] at hget
      simp only [JsMap.set, hk, if_false]
      exact List.Forall₂.cons hab (ih hget)

theorem executeCommand_frame {α : Type} (undefined : α) (p : String)
    (m0 : JsMap Nat (Unit α)) (g : Game α) (cmd : Command α)
    (hrel : List.Forall₂ (SameButTarget p) m0 g.units) :
    List.Forall₂ (SameButTarget p) m0 (g.executeCommand undefined p cmd).units ∧
    (g.executeCommand undefined p cmd).players = g.players ∧
    (g.executeCommand undefined p cmd).tick = g.tick ∧
    (g.executeCommand undefined p cmd).selection = g.selection ∧
    (g.executeCommand undefined p cmd).nextUnitId = g.nextUnitId := by
  unfold Game.executeCommand
  split
  · refine ⟨?_, rfl, rfl, rfl, rfl⟩
    simp only
    generalize g.selection = sel
    generalize g.units = m at hrel
    induction sel generalizing m with
    | nil => exact hrel
    | cons k ks ih =>
      simp only [List.foldl_cons]
      apply ih
      split
      · rename_i u hget
        split
        · rename_i hown
          exact sameButTarget_set_moveTo p m0 m k u _ _ hrel hget hown
        · exact hrel
      · exact hrel
  · exact ⟨hrel, rfl, rfl, rfl, rfl⟩

/-- C10: `executeCommand(p, cmd)` is `handleInput` of the one command, and
`handleInput(p, commands)` keeps the players, the tick, the selection
and the unit counter, keeps the keys of the unit collection in their order,
changes in a unit at most `targetX` and `targetY`, and returns every unit
whose owner is not `p` exactly as it was. This holds for every type of values
in the fields of a unit, every value of `undefined` in it, and every list of
commands, those with missing coordinates included. -/
theorem handleInput_touches_own_targets_only {α : Type} (undefined : α)
    (g : Game α) (p : String) (commands : List (Command α)) (cmd : Command α) :
    g.executeCommand undefined p cmd = g.handleInput undefined p [cmd] ∧
    (g.handleInput undefined p commands).players = g.players ∧
    (g.handleInput undefined p commands).tick = g.tick ∧
    (g.handleInput undefined p commands).selection = g.selection ∧
    (g.handleInput undefined p commands).nextUnitId = g.nextUnitId ∧
    List.Forall₂
      (fun a b => b.1 = a.1 ∧
        b.2 = { a.2 with targetX := b.2.targetX, targetY := b.2.targetY } ∧
        (a.2.owner ≠ p → b.2 = a.2))
      g.units (g.handleInput undefined p commands).units := by
  have key : ∀ (cmds : List (Command α)) (g' : Game α),
      List.Forall₂ (SameButTarget p) g.units g'.units →
      List.Forall₂ (SameButTarget p) g.units (g'.handleInput undefined p cmds).units ∧
      (g'.handleInput undefined p cmds).players = g'.players ∧
      (g'.handleInput undefined p cmds).tick = g'.tick ∧
      (g'.handleInput undefined p cmds).selection = g'.selection ∧
      (g'.handleInput undefined p cmds).nextUnitId = g'.nextUnitId := by
    intro cmds
    induction cmds with
    | nil => intro g' h; exact ⟨h, rfl, rfl, rfl, rfl⟩
    | cons c cs ih =>
      intro g' h
      have h1 := executeCommand_frame undefined p g.units g' c h
      have h2 := ih (g'.executeCommand undefined p c) h1.1
      simp only [Game.handleInput, List.foldl_cons] at h2 ⊢
      exact ⟨h2.1, h2.2.1.trans h1.2.1, h2.2.2.1.trans h1.2.2.1,
        h2.2.2.2.1.trans h1.2.2.2.1, h2.2.2.2.2.trans h1.2.2.2.2⟩
  have h := key commands g (sameButTarget_refl p g.units)
  exact ⟨rfl, h.2.1, h.2.2.1, h.2.2.2.1, h.2.2.2.2, h.1⟩

theorem foldl_delete_owned {α : Type} (p : String) (es acc : JsMap Nat (Unit α)) :
    es.foldl (fun units e => if e.2.owner = p then units.delete e.1 else units) acc
      = acc.filter
          (fun a => es.all (fun e => !(decide (e.2.owner = p) && decide (e.1 = a.1)))) := by
  induction es generalizing acc with
  | nil => simp
  | cons d rest ih =>
    simp only [List.foldl_cons]
    rw [ih]
    by_cases hd : d.2.owner = p
    · simp only [hd, if_true, JsMap.delete, List.filter_filter]
      apply List.filter_congr
      intro a _
      by_cases hk : d.1 = a.1
      · simp [hk, hd]
      · simp [hk, Ne.symm hk, hd]
    · simp only [hd, if_false]
      apply List.filter_congr
      intro a _
      simp [hd]

theorem update_owner {α : Type} [LinearOrderedField α] (sqrt : α → α) (u : Unit α) :
    (u.update sqrt).owner = u.owner := by
  unfold Unit.update
  simp only
  split <;> rfl

theorem gameLoop_keeps_owners_out {α : Type} [LinearOrderedField α] [FloorRing α]
    (sqrt : α → α) (p : String) (g : Game α) (h : ∀ e ∈ g.units, e.2.owner ≠ p) :
    (∀ e ∈ (g.gameLoop sqrt).1.units, e.2.owner ≠ p) ∧
    ∀ msg ∈ (g.gameLoop sqrt).2, ∀ d ∈ msg.2.units, d.owner ≠ p := by
  have hmap : ∀ e ∈ g.units.map (fun e => (e.1, e.2.update sqrt)), e.2.owner ≠ p := by
    intro e he
    obtain ⟨e0, he0, rfl⟩ := List.mem_map.1 he
    simpa [update_owner] using h e0 he0
  have hser : ∀ d ∈ (JsMap.values (g.units.map (fun e => (e.1, e.2.update sqrt)))).map
      Unit.serialize, d.owner ≠ p := by
    intro d hd
    obtain ⟨u, hu, rfl⟩ := List.mem_map.1 hd
    obtain ⟨e, he, rfl⟩ := List.mem_map.1 hu
    exact hmap e he
  unfold Game.gameLoop
  split
  · exact ⟨h, by simp⟩
  · split
    · simp only
      split
      · refine ⟨hmap, ?_⟩
        intro msg hmsg d hd
        simp only [List.mem_singleton] at hmsg
        subst hmsg
        exact hser d hd
      · exact ⟨hmap, by simp⟩
    · exact ⟨h, by simp⟩

theorem gameLoops_keeps_owners_out {α : Type} [LinearOrderedField α] [FloorRing α]
    (sqrt : α → α) (p : String) (n : Nat) (g : Game α) (h : ∀ e ∈ g.units, e.2.owner ≠ p) :
    ∀ msg ∈ (Game.gameLoops sqrt n g).2, ∀ d ∈ msg.2.units, d.owner ≠ p := by
  induction n generalizing g with
  | zero => simp [Game.gameLoops]
  | succ k ih =>
    have h1 := gameLoop_keeps_owners_out sqrt p g h
    intro msg hmsg
    simp only [Game.gameLoops, List.mem_append] at hmsg
    rcases hmsg with hm | hm
    · exact h1.2 msg hm
    · exact ih _ h1.1 msg hm

/-- C11: after `removePlayer(p)` the players have no entry for `p` and no unit
of the collection has owner `p`; every other player is found as before, and,
the keys of the unit collection being distinct as in a `Map`, the collection
is the old one without the units of `p`, all others in their order and
unchanged. No snapshot that the following calls of `gameLoop()` broadcast has
an entry with owner `p`. -/
theorem removePlayer_drops_player_and_units {α : Type} [LinearOrderedField α] [FloorRing α]
    (sqrt : α → α) (g : Game α) (p : String) :
    (g.removePlayer p).players.get p = none ∧
    (∀ q, q ≠ p → (g.removePlayer p).players.get q = g.players.get q) ∧
    (∀ e ∈ (g.removePlayer p).units, e.2.owner ≠ p) ∧
    (g.units.keys.Nodup →
      (g.removePlayer p).units = g.units.filter (fun e => decide (e.2.owner ≠ p))) ∧
    (∀ n, ∀ msg ∈ (Game.gameLoops sqrt n (g.removePlayer p)).2,
      ∀ d ∈ msg.2.units, d.owner ≠ p) := by
  have hunits : (g.removePlayer p).units
      = g.units.filter
          (fun a => g.units.all (fun e => !(decide (e.2.owner = p) && decide (e.1 = a.1)))) :=
    foldl_delete_owned p g.units g.units
  have hout : ∀ e ∈ (g.removePlayer p).units, e.2.owner ≠ p := by
    intro e he hown
    rw [hunits, List.mem_filter] at he
    have := List.all_eq_true.1 he.2 e he.1
    simp [hown] at this
  refine ⟨JsMap.get_delete_self g.players p, ?_, hout, ?_, ?_⟩
  · intro q hq
    exact JsMap.get_delete_ne g.players hq
  · intro hnd
    rw [hunits]
    apply List.filter_congr
    intro a ha
    by_cases hown : a.2.owner = p
    · have : (g.units.all fun e => !(decide (e.2.owner = p) && decide (e.1 = a.1))) = false := by
        rw [List.all_eq_false]
        exact ⟨a, ha, by simp [hown]⟩
      rw [this]
      simp [hown]
    · have : (g.units.all fun e => !(decide (e.2.owner = p) && decide (e.1 = a.1))) = true := by
        rw [List.all_eq_true]
        intro e he
        by_cases hk : e.1 = a.1
        · have hea : e = a := List.inj_on_of_nodup_map hnd he ha hk
          subst hea
          simp [hown]
        · simp [hk]
      rw [this]
      simp [hown]
  · intro n
    exact gameLoops_keeps_owners_out sqrt p n _ hout

/-- Witness of C11: a host with one unit of `h` and one of `p` removes `p`. -/
theorem removePlayer_drops_player_and_units_witness :
    (JsMap.keys ({ (Game.new true : Game ℚ) with
        units := [(1, (Unit.new 1 200 180 "h" : Unit ℚ)), (4, Unit.new 4 300 260 "p")] }).units).Nodup ∧
    (({ (Game.new true : Game ℚ) with
        units := [(1, (Unit.new 1 200 180 "h" : Unit ℚ)), (4, Unit.new 4 300 260 "p")] }).removePlayer
          "p").units
      = List.filter (fun e => decide (e.2.owner ≠ "p"))
          ({ (Game.new true : Game ℚ) with
            units := [(1, (Unit.new 1 200 180 "h" : Unit ℚ)), (4, Unit.new 4 300 260 "p")] }).units :=
  ⟨by simp [JsMap.keys],
    (removePlayer_drops_player_and_units (fun x => x)
      ({ (Game.new true : Game ℚ) with
        units := [(1, (Unit.new 1 200 180 "h" : Unit ℚ)), (4, Unit.new 4 300 260 "p")] }) "p").2.2.2.1
      (by simp [JsMap.keys])⟩

theorem mathRound_intCast {α : Type} [LinearOrderedField α] [FloorRing α] (n : ℤ) :
    mathRound (n : α) = (n : α) := by
  unfold mathRound
  congr 1
  rw [Int.floor_eq_iff]
  constructor
  · linarith [show (0 : α) < 1 / 2 by norm_num]
  · linarith [show (1 : α) / 2 < 1 by norm_num]

theorem update_step_right (u : Unit ℝ) (hy : u.targetY = u.y) (hpos : 0 < u.targetX - u.x)
    (hfar : u.speed < u.targetX - u.x) :
    u.update Real.sqrt = { u with x := u.x + u.speed } := by
  have hd : Real.sqrt ((u.targetX - u.x) * (u.targetX - u.x)
      + (u.targetY - u.y) * (u.targetY - u.y)) = u.targetX - u.x := by
    rw [hy, sub_self, mul_zero, add_zero, Real.sqrt_mul_self hpos.le]
  simp only [Unit.update, hd]
  rw [if_pos hfar, div_self (ne_of_gt hpos), hy, sub_self, zero_div, zero_mul, add_zero, one_mul]

theorem gameLoop_of_host {α : Type} [LinearOrderedField α] [FloorRing α] (sqrt : α → α)
    (g : Game α) (hrun : g.running = true) (hhost : g.isHost = true) :
    g.gameLoop sqrt
      = ({ g with tick := g.tick + 1, units := g.units.map (fun e => (e.1, e.2.update sqrt)) },
          if (g.tick + 1) % 4 = 0 then
            [("reliable",
              { tick := g.tick + 1
                units := g.units.map (fun e => (e.2.update sqrt).serialize) })]
          else []) := by
  unfold Game.gameLoop
  simp only [hrun, hhost, Bool.not_true, Bool.false_eq_true, if_false, if_true, JsMap.values,
    List.map_map]
  split <;> rfl

theorem gameLoop_unit_moving_right (t : Nat) (x : ℝ) (hx : x + 2 < 200) :
    Game.gameLoop Real.sqrt
        (⟨true, [(1, ⟨1, x, 100, "h", 200, 100, 100, 100, 2, false⟩)], [], t, 1, true, none, []⟩ :
          Game ℝ)
      = (⟨true, [(1, ⟨1, x + 2, 100, "h", 200, 100, 100, 100, 2, false⟩)], [], t + 1, 1, true,
            none, []⟩,
          if (t + 1) % 4 = 0 then
            [("reliable",
              { tick := t + 1
                units := [⟨1, mathRound (x + 2), mathRound 100, mathRound 200, mathRound 100,
                  100, "h"⟩] })]
          else []) := by
  have hu := update_step_right ⟨1, x, 100, "h", 200, 100, 100, 100, 2, false⟩ rfl
    (by show (0 : ℝ) < 200 - x; linarith) (by show (2 : ℝ) < 200 - x; linarith)
  rw [gameLoop_of_host Real.sqrt _ rfl rfl]
  simp only [List.map_cons, List.map_nil, hu, Unit.serialize]

/-- C12: over the real numbers, one call of `gameLoop()` on a running host
adds 1 to the tick, replaces every unit by its `update()` and keeps the rest
of the game; it broadcasts on `reliable` exactly when the new tick is
divisible by 4, and then one snapshot with the new tick and the serialized
units in their order. `serialize()` keeps `id`, `hp` and `owner` and rounds
`x`, `y`, `targetX` and `targetY` to the nearest integer. A host at tick 36
with a unit at (100, 100), target (200, 100) and speed 2 has, after four
calls, tick 40 and the unit at (108, 100), and has broadcast one snapshot,
with tick 40 and the unit at `x = 108`. On a game that is not the host a call
returns the game as it was and broadcasts nothing. -/
theorem gameLoop_advances_host (g : Game ℝ) :
    (g.running = true → g.isHost = true →
      (g.gameLoop Real.sqrt).1
        = { g with
            tick := g.tick + 1
            units := g.units.map (fun e => (e.1, e.2.update Real.sqrt)) } ∧
      ((g.tick + 1) % 4 = 0 →
        (g.gameLoop Real.sqrt).2
          = [("reliable",
              { tick := g.tick + 1
                units := g.units.map (fun e => (e.2.update Real.sqrt).serialize) })]) ∧
      ((g.tick + 1) % 4 ≠ 0 → (g.gameLoop Real.sqrt).2 = [])) ∧
    (∀ u : Unit ℝ, u.serialize
      = { id := u.id, x := ((round u.x : ℤ) : ℝ), y := ((round u.y : ℤ) : ℝ),
          tx := ((round u.targetX : ℤ) : ℝ), ty := ((round u.targetY : ℤ) : ℝ),
          hp := u.hp, owner := u.owner }) ∧
    Game.gameLoops Real.sqrt 4
        ({ (Game.new true : Game ℝ) with
            running := true, tick := 36,
            units := [(1, (Unit.new 1 100 100 "h" : Unit ℝ).moveTo 200 100)] } : Game ℝ)
      = ({ (Game.new true : Game ℝ) with
            running := true, tick := 40,
            units := [(1, { (Unit.new 1 100 100 "h" : Unit ℝ).moveTo 200 100 with x := 108 })] },
          [("reliable", { tick := 40, units := [⟨1, 108, 100, 200, 100, 100, "h"⟩] })]) ∧
    (g.isHost = false → g.gameLoop Real.sqrt = (g, [])) := by
  refine ⟨?_, ?_, ?_, ?_⟩
  · intro hrun hhost
    rw [gameLoop_of_host Real.sqrt g hrun hhost]
    refine ⟨rfl, ?_, ?_⟩
    · intro h4
      simp only [h4, if_true]
    · intro h4
      simp only [h4, if_false]
  · intro u
    simp only [Unit.serialize, mathRound, round_eq]
  · have hr : ∀ n : ℤ, mathRound ((n : ℝ)) = n := mathRound_intCast
    have h108 : mathRound (108 : ℝ) = 108 := by simpa using hr 108
    have h100 : mathRound (100 : ℝ) = 100 := by simpa using hr 100
    have h200 : mathRound (200 : ℝ) = 200 := by simpa using hr 200
    have e1 := gameLoop_unit_moving_right 36 100 (by norm_num)
    have e2 := gameLoop_unit_moving_right 37 (100 + 2) (by norm_num)
    have e3 := gameLoop_unit_moving_right 38 (100 + 2 + 2) (by norm_num)
    have e4 := gameLoop_unit_moving_right 39 (100 + 2 + 2 + 2) (by norm_num)
    have h8 : (100 : ℝ) + 2 + 2 + 2 + 2 = 108 := by norm_num
    simp only [Nat.reduceAdd, Nat.reduceMod, if_true, if_false, OfNat.ofNat_ne_zero,
      Nat.succ_ne_zero, h8, h108, h100, h200] at e1 e2 e3 e4
    simp only [Game.gameLoops, Game.new, Unit.new, Unit.moveTo, e1, e2, e3, e4, List.nil_append,
      List.append_nil]
  · intro hhost
    unfold Game.gameLoop
    simp only [hhost, Bool.false_eq_true, if_false]
    split <;> rfl

/-- Witness of C12: a running host at tick 3 with one resting unit. -/
theorem gameLoop_advances_host_witness :
    ({ (Game.new true : Game ℝ) with
        running := true, tick := 3, units := [(1, (Unit.new 1 200 180 "h" : Unit ℝ))] }).running = true ∧
    ({ (Game.new true : Game ℝ) with
        running := true, tick := 3, units := [(1, (Unit.new 1 200 180 "h" : Unit ℝ))] }).isHost = true ∧
    (Game.gameLoop Real.sqrt ({ (Game.new true : Game ℝ) with
        running := true, tick := 3, units := [(1, (Unit.new 1 200 180 "h" : Unit ℝ))] })).1
      = { ({ (Game.new true : Game ℝ) with
            running := true, tick := 3, units := [(1, (Unit.new 1 200 180 "h" : Unit ℝ))] }) with
          tick := 3 + 1
          units := List.map (fun e => (e.1, e.2.update Real.sqrt))
            [(1, (Unit.new 1 200 180 "h" : Unit ℝ))] } :=
  ⟨rfl, rfl,
    ((gameLoop_advances_host ({ (Game.new true : Game ℝ) with
        running := true, tick := 3, units := [(1, (Unit.new 1 200 180 "h" : Unit ℝ))] })).1 rfl rfl).1⟩

end SmallRTS
